import Mathlib

/-!
# Verification of the training-orchestration core (`uncertainty_stream/train.py`)

Shallow embedding of the epoch/validation loop of `Trainer` and of the
k-fold driver in `train.py`, together with spec-modelled components
(`EarlyStopping`, `ModelCheckpoint`) whose source file
(`utils/training_utils.py`) is not part of the provided sources.

Numeric values (losses, errors, tensors' scalar summaries) are modelled as
rationals; python integers as `Int`/`Nat`. The model, criterion and
optimizer are external collaborators and appear as function parameters.
-/

namespace TrainPy

/-- One sample of a batch, as yielded by the data pipeline:
`(x, y, norm_factor, ids_idx, (scale, weight), window_id)` (train.py line 119).
Tensors are flattened to one rational per sample for the orchestration model. -/
structure Sample where
  x : ℚ
  y : ℚ
  normFactor : ℚ
  scale : ℚ
  weight : ℚ
  windowId : ℤ
deriving DecidableEq, Repr

/-- `preds = self.model(*x) * norm_factor` applied samplewise
(train.py lines 98 and 127). `model` takes the current parameters and an input. -/
def forwardPreds (model : ℚ → ℚ → ℚ) (params : ℚ) (batch : List Sample) : List ℚ :=
  batch.map (fun s => model params s.x * s.normFactor)

/-- `loss = self.criterion(preds, y, *loss_input)` (train.py lines 100 and 143):
the criterion consumes the per-sample predictions, targets, scales and weights. -/
def batchLoss (criterion : List ℚ → List ℚ → List ℚ → List ℚ → ℚ)
    (preds : List ℚ) (batch : List Sample) : ℚ :=
  criterion preds (batch.map Sample.y) (batch.map Sample.scale) (batch.map Sample.weight)

/-- `self.agg_sum = self.config.loss_fn[:3] == 'SPL'` (train.py line 41). -/
def agg_sum (loss_fn : String) : Bool :=
  loss_fn.take 3 == "SPL"

/-- `self.loss_agg = np.sum if self.agg_sum else np.mean` (train.py line 42). -/
def loss_agg (aggSum : Bool) (losses : List ℚ) : ℚ :=
  if aggSum then losses.sum else losses.sum / losses.length

/-- Reported training loss (train.py lines 159-162):
`loss_agg(losses) / n_windows` for a sum-style loss, `loss_agg(losses)` otherwise. -/
def train_loss (aggSum : Bool) (nWindows : ℤ) (losses : List ℚ) : ℚ :=
  if aggSum then loss_agg aggSum losses / (nWindows : ℚ) else loss_agg aggSum losses

/-- Best-model bookkeeping at the end of one epoch (train.py lines 178-188):
returns the updated `min_val_error` and the `is_best` flag. -/
def checkpointStep (min_val_error : Option ℚ) (val_error : ℚ) : Option ℚ × Bool :=
  match min_val_error with
  | none => (some val_error, true)
  | some m => if val_error < m then (some val_error, true) else (some m, false)

/-- Iterates `checkpointStep` over the fold's successive validation errors,
collecting the `is_best` flag of each epoch. -/
def bestTrace (min_val_error : Option ℚ) : List ℚ → Option ℚ × List Bool
  | [] => (min_val_error, [])
  | v :: rest =>
    let (m, b) := checkpointStep min_val_error v
    let (mfin, bs) := bestTrace m rest
    (mfin, b :: bs)

end TrainPy

namespace TrainPy

lemma bestTrace_length (m : Option ℚ) (errs : List ℚ) :
    (bestTrace m errs).2.length = errs.length := by
  induction errs generalizing m with
  | nil => rfl
  | cons v rest ih => simp [bestTrace, ih]

lemma checkpointStep_some (m v : ℚ) :
    checkpointStep (some m) v = (some (min m v), decide (v < m)) := by
  by_cases h : v < m
  · simp [checkpointStep, h, min_eq_right (le_of_lt h)]
  · simp [checkpointStep, h, min_eq_left (le_of_not_lt h)]

/-- `a` is below the running minimum of `m` over `l` iff it is below `m`
and below every element of `l`. -/
lemma lt_foldl_min (a m : ℚ) (l : List ℚ) :
    a < l.foldl min m ↔ a < m ∧ ∀ x ∈ l, a < x := by
  induction l generalizing m with
  | nil => simp
  | cons b t ih =>
    simp only [List.foldl_cons, ih, lt_min_iff, List.mem_cons]
    constructor
    · rintro ⟨⟨h1, h2⟩, h3⟩
      exact ⟨h1, fun x hx => hx.elim (fun e => e ▸ h2) (h3 x)⟩
    · rintro ⟨h1, h2⟩
      exact ⟨⟨h1, h2 b (Or.inl rfl)⟩, fun x hx => h2 x (Or.inr hx)⟩

lemma bestTrace_min (m : ℚ) (errs : List ℚ) :
    (bestTrace (some m) errs).1 = some (errs.foldl min m) := by
  induction errs generalizing m with
  | nil => rfl
  | cons v rest ih =>
    simp only [bestTrace, checkpointStep_some, ih, List.foldl_cons]

lemma bestTrace_flags (m : ℚ) (errs : List ℚ) (i : ℕ) (hi : i < errs.length) :
    (bestTrace (some m) errs).2.getD i false
      = decide (errs.getD i 0 < m ∧ ∀ x ∈ errs.take i, errs.getD i 0 < x) := by
  induction errs generalizing m i with
  | nil => simp at hi
  | cons v rest ih =>
    cases i with
    | zero =>
      simp [bestTrace, checkpointStep_some]
    | succ j =>
      have hj : j < rest.length := Nat.lt_of_succ_lt_succ hi
      have := ih (min m v) j hj
      simp only [bestTrace, checkpointStep_some, List.getD_cons_succ, List.take_succ_cons]
      rw [this]
      congr 1
      simp only [lt_min_iff, List.mem_cons, eq_iff_iff]
      constructor
      · rintro ⟨⟨h1, h2⟩, h3⟩
        exact ⟨h1, fun x hx => hx.elim (fun e => e ▸ h2) (h3 x)⟩
      · rintro ⟨h1, h2⟩
        exact ⟨⟨h1, h2 v (Or.inl rfl)⟩, fun x hx => h2 x (Or.inr hx)⟩

/-- **C1.** After the epoch loop processes validation errors `errs` starting
from `min_val_error = None` (train.py line 56), the tracked best validation
error equals the minimum of all observed errors (`List.min?`), the trace of
`is_best` flags has one entry per epoch, and epoch `i` is marked best exactly
when its validation error is strictly below every previously observed one
(the first epoch, whose set of predecessors is empty, is always best). -/
theorem best_val_error_is_min (errs : List ℚ) :
    (bestTrace none errs).1 = errs.min? ∧
    (bestTrace none errs).2.length = errs.length ∧
    ∀ i, i < errs.length →
      ((bestTrace none errs).2.getD i false
        = decide (∀ x ∈ errs.take i, errs.getD i 0 < x)) := by
  refine ⟨?_, bestTrace_length none errs, ?_⟩
  · cases errs with
    | nil => rfl
    | cons v rest =>
      simp only [bestTrace, checkpointStep, List.min?]
      exact bestTrace_min v rest
  · intro i hi
    cases errs with
    | nil => simp at hi
    | cons v rest =>
      cases i with
      | zero => simp [bestTrace, checkpointStep]
      | succ j =>
        have hj : j < rest.length := Nat.lt_of_succ_lt_succ hi
        simp only [bestTrace, checkpointStep, List.getD_cons_succ, List.take_succ_cons]
        rw [bestTrace_flags v rest j hj]
        congr 1
        simp only [List.mem_cons, eq_iff_iff]
        constructor
        · rintro ⟨h1, h2⟩ x hx
          exact hx.elim (fun e => e ▸ h1) (h2 x)
        · intro h
          exact ⟨h v (Or.inl rfl), fun x hx => h x (Or.inr hx)⟩

/-- Witness for `best_val_error_is_min`: concrete run `[3, 2, 5, 2, 1]` — the
best error ends at `1`, and the best flags are `[true, true, false, false, true]`. -/
theorem best_val_error_is_min_witness :
    (bestTrace none [(3 : ℚ), 2, 5, 2, 1]).1 = some 1 ∧
    (bestTrace none [(3 : ℚ), 2, 5, 2, 1]).2.getD 3 false = false := by
  have h := best_val_error_is_min [(3 : ℚ), 2, 5, 2, 1]
  refine ⟨?_, ?_⟩
  · rw [h.1]; decide
  · rw [h.2.2 3 (by decide)]; decide

/-- **C3.** The reported training loss is the mean of the per-batch losses
when the configured loss name does not begin with the sum-style prefix
(`agg_sum` false), and the sum of the per-batch losses divided by `n_windows`
when it does; with per-batch losses `[4, 6]` and `n_windows = 2`, the
sum-style loss `"SPL3"` and the non-sum loss `"MSE"` both report `5`. -/
theorem train_loss_aggregation :
    (∀ (loss_fn : String) (nWindows : ℤ) (losses : List ℚ),
      agg_sum loss_fn = false →
        train_loss (agg_sum loss_fn) nWindows losses = losses.sum / losses.length) ∧
    (∀ (loss_fn : String) (nWindows : ℤ) (losses : List ℚ),
      agg_sum loss_fn = true →
        train_loss (agg_sum loss_fn) nWindows losses = losses.sum / (nWindows : ℚ)) ∧
    agg_sum "SPL3" = true ∧
    agg_sum "MSE" = false ∧
    train_loss (agg_sum "SPL3") 2 [4, 6] = 5 ∧
    train_loss (agg_sum "MSE") 2 [4, 6] = 5 := by
  refine ⟨?_, ?_, by decide, by decide, ?_, ?_⟩
  · intro f n losses h
    simp [train_loss, loss_agg, h]
  · intro f n losses h
    simp [train_loss, loss_agg, h]
  · show train_loss true 2 [4, 6] = 5
    norm_num [train_loss, loss_agg]
  · show train_loss false 2 [4, 6] = 5
    norm_num [train_loss, loss_agg]

/-- Witness for `train_loss_aggregation`: the non-sum branch applied to the
loss name `"MSE"` with losses `[4, 6]` gives the mean `5`. -/
theorem train_loss_aggregation_witness :
    agg_sum "MSE" = false ∧
    train_loss (agg_sum "MSE") 2 [(4 : ℚ), 6] = ([(4 : ℚ), 6].sum / ([(4 : ℚ), 6].length : ℚ)) := by
  refine ⟨by decide, ?_⟩
  exact (train_loss_aggregation.1) "MSE" 2 [4, 6] (by decide)

/-- Modelled from the spec: `EarlyStopping` lives in `utils/training_utils.py`,
which is not among the provided sources (train.py only imports and drives it,
lines 12, 40, 62-63, 201). Spec §4.4: it holds a patience bound, a best-error
value (initially unset or restored from a checkpoint) and a
consecutive-bad-epoch counter. -/
structure EarlyStopping where
  patience : ℕ
  best : Option ℚ
  num_bad_epochs : ℕ
deriving DecidableEq, Repr

/-- Modelled from the spec (§4.4): `step(current_error) -> should_stop`.
If no best error is recorded, or the current error improves on it, record it,
reset the bad-epoch counter to 0 and return false; otherwise increment the
bad-epoch counter and return true exactly when it reaches the patience bound. -/
def EarlyStopping.step (es : EarlyStopping) (current_error : ℚ) : Bool × EarlyStopping :=
  match es.best with
  | none => (false, { es with best := some current_error, num_bad_epochs := 0 })
  | some b =>
    if current_error < b then
      (false, { es with best := some current_error, num_bad_epochs := 0 })
    else
      (decide (es.patience ≤ es.num_bad_epochs + 1),
       { es with num_bad_epochs := es.num_bad_epochs + 1 })

/-- Iterates `EarlyStopping.step` over a list of validation errors,
collecting the returned stop signals. -/
def EarlyStopping.run (es : EarlyStopping) : List ℚ → List Bool × EarlyStopping
  | [] => ([], es)
  | v :: rest =>
    let (stop, es1) := es.step v
    let (stops, es2) := es1.run rest
    (stop :: stops, es2)

lemma EarlyStopping.run_no_improvement (P k : ℕ) (b : ℚ) (errs : List ℚ)
    (h : ∀ e ∈ errs, b ≤ e) :
    (EarlyStopping.run ⟨P, some b, k⟩ errs).1
      = (List.range errs.length).map (fun i => decide (P ≤ k + i + 1)) := by
  induction errs generalizing k with
  | nil => rfl
  | cons v rest ih =>
    have hv : b ≤ v := h v (List.mem_cons_self v rest)
    have hrest : ∀ e ∈ rest, b ≤ e := fun e he => h e (List.mem_cons_of_mem v he)
    simp only [EarlyStopping.run, EarlyStopping.step, not_lt.mpr hv, if_false,
      List.length_cons, List.range_succ_eq_map, List.map_cons, List.map_map]
    rw [ih (k + 1) hrest]
    refine congrArg₂ List.cons ?_ ?_
    · exact decide_eq_decide.mpr (by omega)
    · apply List.map_congr_left
      intro i _
      simp only [Function.comp_apply]
      exact decide_eq_decide.mpr (by omega)

/-- **C4.** The early-stopping step: whenever no best error is recorded or the
current error improves on the recorded best, it records the error, resets the
bad-epoch counter to 0 and returns false; otherwise it increments the counter
and returns true exactly when the counter reaches the patience bound.
Consequently, starting fresh with patience `P ≥ 1`, after a first call that
installs the baseline `e0`, a run of exactly `P` non-improving errors makes
`step` return false on every call before the `P`-th and true on the `P`-th. -/
theorem early_stopping_step_spec :
    (∀ (es : EarlyStopping) (e : ℚ), es.best = none →
      (es.step e).1 = false ∧ (es.step e).2.num_bad_epochs = 0 ∧
      (es.step e).2.best = some e) ∧
    (∀ (es : EarlyStopping) (b e : ℚ), es.best = some b → e < b →
      (es.step e).1 = false ∧ (es.step e).2.num_bad_epochs = 0 ∧
      (es.step e).2.best = some e) ∧
    (∀ (es : EarlyStopping) (b e : ℚ), es.best = some b → ¬ e < b →
      (es.step e).2.num_bad_epochs = es.num_bad_epochs + 1 ∧
      ((es.step e).1 = true ↔ es.patience ≤ es.num_bad_epochs + 1)) ∧
    (∀ (P : ℕ) (e0 : ℚ) (errs : List ℚ), 1 ≤ P → errs.length = P →
      (∀ e ∈ errs, e0 ≤ e) →
      ((EarlyStopping.step ⟨P, none, 0⟩ e0).1 = false ∧
       (EarlyStopping.run (EarlyStopping.step ⟨P, none, 0⟩ e0).2 errs).1
         = (List.range P).map (fun i => decide (i + 1 = P)))) := by
  refine ⟨?_, ?_, ?_, ?_⟩
  · intro es e h
    simp [EarlyStopping.step, h]
  · intro es b e h hlt
    simp [EarlyStopping.step, h, hlt]
  · intro es b e h hge
    simp [EarlyStopping.step, h, hge]
  · intro P e0 errs hP hlen hmono
    refine ⟨rfl, ?_⟩
    have hstate : (EarlyStopping.step ⟨P, none, 0⟩ e0).2
        = (⟨P, some e0, 0⟩ : EarlyStopping) := rfl
    rw [hstate, EarlyStopping.run_no_improvement P 0 e0 errs hmono, hlen]
    apply List.map_congr_left
    intro i hi
    have hlt : i < P := List.mem_range.mp hi
    exact decide_eq_decide.mpr (by omega)

/-- Witness for `early_stopping_step_spec`: with patience `P = 2`, baseline
error `5` followed by the non-improving errors `[5, 6]`, the stop signals are
`[false, true]` — false on the first non-improving call, true on the second. -/
theorem early_stopping_step_spec_witness :
    (EarlyStopping.run (EarlyStopping.step ⟨2, none, 0⟩ 5).2 [(5 : ℚ), 6]).1
      = (List.range 2).map (fun i => decide (i + 1 = 2)) := by
  exact (early_stopping_step_spec.2.2.2 2 5 [(5 : ℚ), 6] (by decide) (by decide)
    (by intro e he; fin_cases he <;> norm_num)).2

/-- Modelled from the spec: `ModelCheckpoint` lives in `utils/training_utils.py`,
which is not among the provided sources (train.py only drives it, lines 12, 58,
60-61, 189-190). Spec §4.3 / §3: a persisted snapshot holds model parameters,
optimizer state, scheduler state and the `(epoch, best_error, bad_epoch_count)`
triple. -/
structure Snapshot where
  model : ℚ
  optimizer : ℚ
  scheduler : ℚ
  epoch : ℕ
  best_error : ℚ
  bad_epoch_count : ℕ
deriving DecidableEq, Repr

/-- Modelled from the spec (§4.3, §6): one checkpoint namespace holds a
"latest" and a "best" snapshot. -/
structure CheckpointStore where
  latest : Option Snapshot
  best : Option Snapshot
deriving DecidableEq, Repr

/-- Modelled from the spec (§4.3): `save` always overwrites the "latest"
snapshot and additionally overwrites the "best" snapshot when `is_best` is
true. -/
def CheckpointStore.save (store : CheckpointStore) (is_best : Bool)
    (best_error : ℚ) (bad_epoch_count : ℕ) (epoch : ℕ)
    (model optimizer scheduler : ℚ) : CheckpointStore :=
  let snap : Snapshot :=
    { model := model, optimizer := optimizer, scheduler := scheduler,
      epoch := epoch, best_error := best_error, bad_epoch_count := bad_epoch_count }
  { latest := some snap, best := if is_best then some snap else store.best }

/-- Modelled from the spec (§4.3): `load` restores model, optimizer and
scheduler state together with `[start_epoch = saved epoch + 1, best_error,
bad_epoch_count]`; loading from a store with no latest snapshot is a fatal
error (`none`). -/
def CheckpointStore.load (store : CheckpointStore) :
    Option (ℚ × ℚ × ℚ × (ℕ × ℚ × ℕ)) :=
  store.latest.map (fun s =>
    (s.model, s.optimizer, s.scheduler, (s.epoch + 1, s.best_error, s.bad_epoch_count)))

/-- Resume installation (train.py lines 59-64): the loaded triple sets
`start_epoch` and `min_val_error`, and the loaded best error and bad-epoch
count are installed into the early-stopping monitor
(`self.early_stopping.best = self.min_val_error`;
`self.early_stopping.num_bad_epochs = num_bad_epochs`). -/
def resumeInstall (es : EarlyStopping) (loaded : ℕ × ℚ × ℕ) :
    (ℕ × Option ℚ) × EarlyStopping :=
  let (start_epoch, min_val_error, num_bad_epochs) := loaded
  ((start_epoch, some min_val_error),
   { es with best := some min_val_error, num_bad_epochs := num_bad_epochs })

/-- **C8.** Saving a checkpoint at epoch `E` and loading it back restores the
model, optimizer and scheduler state exactly, yields a resume epoch of `E + 1`
together with the saved best error and bad-epoch count, and installing the
loaded triple sets `start_epoch = E + 1`, `min_val_error` to the saved best
error, and the early-stopping monitor's best error and bad-epoch count to the
saved values. -/
theorem checkpoint_save_load_roundtrip (store : CheckpointStore) (is_best : Bool)
    (best_error : ℚ) (bad : ℕ) (E : ℕ) (model optimizer scheduler : ℚ)
    (es : EarlyStopping) :
    (store.save is_best best_error bad E model optimizer scheduler).load
      = some (model, optimizer, scheduler, (E + 1, best_error, bad)) ∧
    resumeInstall es (E + 1, best_error, bad)
      = ((E + 1, some best_error),
         { es with best := some best_error, num_bad_epochs := bad }) := by
  exact ⟨rfl, rfl⟩

/-- Model mode: `self.model.train()` (train.py line 116) versus
`self.model.eval()` (line 84). -/
inductive Mode
  | train
  | eval
deriving DecidableEq, Repr

/-- Accumulation state of one epoch pass (train.py lines 87 and 118):
`losses, epoch_preds, epoch_ys, epoch_ws, epoch_scales`, kept as lists of
per-batch arrays that are concatenated after the loop (lines 103-104 and
156-157), together with the model parameters and the model mode. -/
structure PassState where
  params : ℚ
  mode : Mode
  losses : List ℚ
  epoch_preds : List (List ℚ)
  epoch_ys : List (List ℚ)
  epoch_ws : List (List ℚ)
  epoch_scales : List (List ℚ)
deriving Repr

/-- One iteration of the training batch loop (train.py lines 119-153).
In sliding-window mode (lines 129-136) only the samples whose `window_id`
equals `n_windows - 1` are appended, and only when the batch contains at
least one such sample (`torch.sum(window_id == self.n_windows - 1) > 0`);
otherwise (lines 137-141) the full batch is appended. The loss is computed
on the full batch (line 143) and the optimizer updates the parameters once
per batch (lines 152-153). -/
def trainBatch (model : ℚ → ℚ → ℚ)
    (criterion : List ℚ → List ℚ → List ℚ → List ℚ → ℚ) (optStep : ℚ → ℚ → ℚ)
    (sliding_window : Bool) (n_windows : ℤ)
    (st : PassState) (batch : List Sample) : PassState :=
  let preds := forwardPreds model st.params batch
  let st1 :=
    if sliding_window then
      let keep := batch.filter (fun s => s.windowId == n_windows - 1)
      if 0 < keep.length then
        { st with
          epoch_ys := st.epoch_ys ++ [keep.map Sample.y]
          epoch_scales := st.epoch_scales ++ [keep.map Sample.scale]
          epoch_ws := st.epoch_ws ++ [keep.map Sample.weight]
          epoch_preds := st.epoch_preds ++ [forwardPreds model st.params keep] }
      else st
    else
      { st with
        epoch_ys := st.epoch_ys ++ [batch.map Sample.y]
        epoch_scales := st.epoch_scales ++ [batch.map Sample.scale]
        epoch_ws := st.epoch_ws ++ [batch.map Sample.weight]
        epoch_preds := st.epoch_preds ++ [preds] }
  let loss := batchLoss criterion preds batch
  { st1 with
    losses := st1.losses ++ [loss]
    params := optStep st1.params loss }

/-- The training pass of one epoch (train.py lines 116-153): the model is put
in training mode and the batch loop is folded over the training batches. -/
def trainPass (model : ℚ → ℚ → ℚ)
    (criterion : List ℚ → List ℚ → List ℚ → List ℚ → ℚ) (optStep : ℚ → ℚ → ℚ)
    (sliding_window : Bool) (n_windows : ℤ)
    (params : ℚ) (batches : List (List Sample)) : PassState :=
  batches.foldl (trainBatch model criterion optStep sliding_window n_windows)
    { params := params, mode := Mode.train, losses := [],
      epoch_preds := [], epoch_ys := [], epoch_ws := [], epoch_scales := [] }

/-- Model parameters in effect at each batch of the training pass: the
optimizer step is applied once per batch to the full-batch loss
(train.py lines 143, 152-153). -/
def paramsTrace (model : ℚ → ℚ → ℚ)
    (criterion : List ℚ → List ℚ → List ℚ → List ℚ → ℚ) (optStep : ℚ → ℚ → ℚ) :
    ℚ → List (List Sample) → List ℚ
  | _, [] => []
  | p, b :: rest =>
    p :: paramsTrace model criterion optStep
      (optStep p (batchLoss criterion (forwardPreds model p b) b)) rest

/-- One iteration of the validation batch loop
(`Trainer._get_val_loss_and_err`, train.py lines 88-101): targets, scales and
weights of every sample are appended before the forward pass, the full
predictions and the batch loss after it; no optimizer step occurs. -/
def valBatch (model : ℚ → ℚ → ℚ)
    (criterion : List ℚ → List ℚ → List ℚ → List ℚ → ℚ)
    (st : PassState) (batch : List Sample) : PassState :=
  let st1 := { st with
    epoch_ys := st.epoch_ys ++ [batch.map Sample.y]
    epoch_scales := st.epoch_scales ++ [batch.map Sample.scale]
    epoch_ws := st.epoch_ws ++ [batch.map Sample.weight] }
  let preds := forwardPreds model st1.params batch
  { st1 with
    epoch_preds := st1.epoch_preds ++ [preds]
    losses := st1.losses ++ [batchLoss criterion preds batch] }

/-- The validation pass (`Trainer._get_val_loss_and_err`, train.py
lines 83-109): the model is put in evaluation mode (line 84) and the
validation batches are folded over with `valBatch`. -/
def valPass (model : ℚ → ℚ → ℚ)
    (criterion : List ℚ → List ℚ → List ℚ → List ℚ → ℚ)
    (params : ℚ) (batches : List (List Sample)) : PassState :=
  batches.foldl (valBatch model criterion)
    { params := params, mode := Mode.eval, losses := [],
      epoch_preds := [], epoch_ys := [], epoch_ws := [], epoch_scales := [] }

section PassLemmas

variable (m : ℚ → ℚ → ℚ) (c : List ℚ → List ℚ → List ℚ → List ℚ → ℚ)
variable (o : ℚ → ℚ → ℚ) (nW : ℤ)

/-- `trainBatch` appends, per array, exactly the (possibly filtered) batch
chunk, computes the loss on the full batch, and applies one optimizer step;
the mode is untouched. -/
lemma trainBatch_fields (sw : Bool) (st : PassState) (b : List Sample) :
    (trainBatch m c o sw nW st b).params
        = o st.params (batchLoss c (forwardPreds m st.params b) b) ∧
    (trainBatch m c o sw nW st b).mode = st.mode ∧
    (trainBatch m c o sw nW st b).losses
        = st.losses ++ [batchLoss c (forwardPreds m st.params b) b] ∧
    (trainBatch m c o sw nW st b).epoch_ys.flatten
        = st.epoch_ys.flatten
          ++ ((if sw then b.filter (fun s => s.windowId == nW - 1) else b).map Sample.y) ∧
    (trainBatch m c o sw nW st b).epoch_scales.flatten
        = st.epoch_scales.flatten
          ++ ((if sw then b.filter (fun s => s.windowId == nW - 1) else b).map Sample.scale) ∧
    (trainBatch m c o sw nW st b).epoch_ws.flatten
        = st.epoch_ws.flatten
          ++ ((if sw then b.filter (fun s => s.windowId == nW - 1) else b).map Sample.weight) ∧
    (trainBatch m c o sw nW st b).epoch_preds.flatten
        = st.epoch_preds.flatten
          ++ forwardPreds m st.params
              (if sw then b.filter (fun s => s.windowId == nW - 1) else b) := by
  cases sw with
  | false =>
    refine ⟨rfl, rfl, rfl, ?_, ?_, ?_, ?_⟩ <;>
      simp [trainBatch]
  | true =>
    by_cases h : 0 < (b.filter (fun s => s.windowId == nW - 1)).length
    · refine ⟨?_, ?_, ?_, ?_, ?_, ?_, ?_⟩ <;>
        simp [trainBatch, h]
    · have hempty : b.filter (fun s => s.windowId == nW - 1) = [] := by
        cases hf : b.filter (fun s => s.windowId == nW - 1) with
        | nil => rfl
        | cons a t => rw [hf] at h; simp at h
      refine ⟨?_, ?_, ?_, ?_, ?_, ?_, ?_⟩ <;>
        simp [trainBatch, h, hempty, forwardPreds]

/-- Folding `trainBatch` over the batches from an arbitrary accumulation
state: the flattened error-aggregation arrays extend by exactly the
(filtered, in sliding-window mode) samples of all batches; the loss list
extends by the full loss of every batch, evaluated at the parameters in
effect when the batch was processed. -/
lemma trainBatch_fold (sw : Bool) (batches : List (List Sample)) :
    ∀ st : PassState,
    (batches.foldl (trainBatch m c o sw nW) st).mode = st.mode ∧
    (batches.foldl (trainBatch m c o sw nW) st).epoch_ys.flatten
        = st.epoch_ys.flatten
          ++ ((batches.map (fun b =>
                if sw then b.filter (fun s => s.windowId == nW - 1) else b)).flatten.map
              Sample.y) ∧
    (batches.foldl (trainBatch m c o sw nW) st).epoch_scales.flatten
        = st.epoch_scales.flatten
          ++ ((batches.map (fun b =>
                if sw then b.filter (fun s => s.windowId == nW - 1) else b)).flatten.map
              Sample.scale) ∧
    (batches.foldl (trainBatch m c o sw nW) st).epoch_ws.flatten
        = st.epoch_ws.flatten
          ++ ((batches.map (fun b =>
                if sw then b.filter (fun s => s.windowId == nW - 1) else b)).flatten.map
              Sample.weight) ∧
    (batches.foldl (trainBatch m c o sw nW) st).epoch_preds.flatten
        = st.epoch_preds.flatten
          ++ ((batches.zip (paramsTrace m c o st.params batches)).map (fun bp =>
                forwardPreds m bp.2
                  (if sw then bp.1.filter (fun s => s.windowId == nW - 1) else bp.1))).flatten ∧
    (batches.foldl (trainBatch m c o sw nW) st).losses
        = st.losses
          ++ (batches.zip (paramsTrace m c o st.params batches)).map (fun bp =>
                batchLoss c (forwardPreds m bp.2 bp.1) bp.1) := by
  induction batches with
  | nil => intro st; simp [paramsTrace]
  | cons b rest ih =>
    intro st
    obtain ⟨hp, hm, hl, hy, hs, hw, hpr⟩ := trainBatch_fields m c o nW sw st b
    have hrec := ih (trainBatch m c o sw nW st b)
    simp only [List.foldl_cons] at *
    refine ⟨?_, ?_, ?_, ?_, ?_, ?_⟩
    · rw [hrec.1, hm]
    · rw [hrec.2.1, hy]
      simp [List.map_cons, List.flatten_cons, List.map_append, List.append_assoc]
    · rw [hrec.2.2.1, hs]
      simp [List.map_cons, List.flatten_cons, List.map_append, List.append_assoc]
    · rw [hrec.2.2.2.1, hw]
      simp [List.map_cons, List.flatten_cons, List.map_append, List.append_assoc]
    · rw [hrec.2.2.2.2.1, hpr, hp]
      simp [paramsTrace, List.zip_cons_cons, List.map_cons, List.flatten_cons,
        List.append_assoc]
    · rw [hrec.2.2.2.2.2, hl, hp]
      simp [paramsTrace, List.zip_cons_cons, List.map_cons, List.append_assoc]

/-- `valBatch` appends the full batch to every array and the full-batch loss;
parameters and mode are untouched. -/
lemma valBatch_fields (st : PassState) (b : List Sample) :
    (valBatch m c st b).params = st.params ∧
    (valBatch m c st b).mode = st.mode ∧
    (valBatch m c st b).losses
        = st.losses ++ [batchLoss c (forwardPreds m st.params b) b] ∧
    (valBatch m c st b).epoch_ys.flatten
        = st.epoch_ys.flatten ++ b.map Sample.y ∧
    (valBatch m c st b).epoch_scales.flatten
        = st.epoch_scales.flatten ++ b.map Sample.scale ∧
    (valBatch m c st b).epoch_ws.flatten
        = st.epoch_ws.flatten ++ b.map Sample.weight ∧
    (valBatch m c st b).epoch_preds.flatten
        = st.epoch_preds.flatten ++ forwardPreds m st.params b := by
  refine ⟨rfl, rfl, rfl, ?_, ?_, ?_, ?_⟩ <;> simp [valBatch]

/-- Folding `valBatch` over the validation batches leaves the parameters and
mode unchanged, accumulates every sample of every batch, and records the
full-batch loss of every batch at the unchanged parameters. -/
lemma valBatch_fold (batches : List (List Sample)) :
    ∀ st : PassState,
    (batches.foldl (valBatch m c) st).params = st.params ∧
    (batches.foldl (valBatch m c) st).mode = st.mode ∧
    (batches.foldl (valBatch m c) st).epoch_ys.flatten
        = st.epoch_ys.flatten ++ batches.flatten.map Sample.y ∧
    (batches.foldl (valBatch m c) st).epoch_scales.flatten
        = st.epoch_scales.flatten ++ batches.flatten.map Sample.scale ∧
    (batches.foldl (valBatch m c) st).epoch_ws.flatten
        = st.epoch_ws.flatten ++ batches.flatten.map Sample.weight ∧
    (batches.foldl (valBatch m c) st).epoch_preds.flatten
        = st.epoch_preds.flatten
          ++ batches.flatten.map (fun s => m st.params s.x * s.normFactor) ∧
    (batches.foldl (valBatch m c) st).losses
        = st.losses
          ++ batches.map (fun b => batchLoss c (forwardPreds m st.params b) b) := by
  induction batches with
  | nil => intro st; simp
  | cons b rest ih =>
    intro st
    obtain ⟨hp, hm, hl, hy, hs, hw, hpr⟩ := valBatch_fields m c st b
    have hrec := ih (valBatch m c st b)
    simp only [List.foldl_cons] at *
    refine ⟨?_, ?_, ?_, ?_, ?_, ?_, ?_⟩
    · rw [hrec.1, hp]
    · rw [hrec.2.1, hm]
    · rw [hrec.2.2.1, hy]
      simp [List.flatten_cons, List.map_append, List.append_assoc]
    · rw [hrec.2.2.2.1, hs]
      simp [List.flatten_cons, List.map_append, List.append_assoc]
    · rw [hrec.2.2.2.2.1, hw]
      simp [List.flatten_cons, List.map_append, List.append_assoc]
    · rw [hrec.2.2.2.2.2.1, hpr, hp]
      simp [List.flatten_cons, List.map_append, List.append_assoc, forwardPreds]
    · rw [hrec.2.2.2.2.2.2, hl, hp]
      simp [List.append_assoc]

end PassLemmas

/-- **C2.** In sliding-window mode, the epoch's flattened error-aggregation
arrays contain exactly the samples whose window index equals `n_windows - 1`
(targets, scales, weights, and the corresponding predictions at the
parameters in effect for each batch), while the loss list still contains the
full-batch loss of every batch; with sliding-window mode disabled, every
sample of every batch is accumulated. -/
theorem sliding_window_accumulation (m : ℚ → ℚ → ℚ)
    (c : List ℚ → List ℚ → List ℚ → List ℚ → ℚ) (o : ℚ → ℚ → ℚ)
    (nW : ℤ) (params : ℚ) (batches : List (List Sample)) :
    (trainPass m c o true nW params batches).epoch_ys.flatten
        = (batches.flatten.filter (fun s => s.windowId == nW - 1)).map Sample.y ∧
    (trainPass m c o true nW params batches).epoch_scales.flatten
        = (batches.flatten.filter (fun s => s.windowId == nW - 1)).map Sample.scale ∧
    (trainPass m c o true nW params batches).epoch_ws.flatten
        = (batches.flatten.filter (fun s => s.windowId == nW - 1)).map Sample.weight ∧
    (trainPass m c o true nW params batches).epoch_preds.flatten
        = ((batches.zip (paramsTrace m c o params batches)).map (fun bp =>
            forwardPreds m bp.2 (bp.1.filter (fun s => s.windowId == nW - 1)))).flatten ∧
    (trainPass m c o true nW params batches).losses
        = (batches.zip (paramsTrace m c o params batches)).map (fun bp =>
            batchLoss c (forwardPreds m bp.2 bp.1) bp.1) ∧
    (trainPass m c o false nW params batches).epoch_ys.flatten
        = batches.flatten.map Sample.y ∧
    (trainPass m c o false nW params batches).epoch_scales.flatten
        = batches.flatten.map Sample.scale ∧
    (trainPass m c o false nW params batches).epoch_ws.flatten
        = batches.flatten.map Sample.weight ∧
    (trainPass m c o false nW params batches).epoch_preds.flatten
        = ((batches.zip (paramsTrace m c o params batches)).map (fun bp =>
            forwardPreds m bp.2 bp.1)).flatten ∧
    (trainPass m c o false nW params batches).losses
        = (batches.zip (paramsTrace m c o params batches)).map (fun bp =>
            batchLoss c (forwardPreds m bp.2 bp.1) bp.1) := by
  have ht := trainBatch_fold m c o nW true batches
    { params := params, mode := Mode.train, losses := [],
      epoch_preds := [], epoch_ys := [], epoch_ws := [], epoch_scales := [] }
  have hf := trainBatch_fold m c o nW false batches
    { params := params, mode := Mode.train, losses := [],
      epoch_preds := [], epoch_ys := [], epoch_ws := [], epoch_scales := [] }
  simp only [trainPass]
  simp only [Bool.false_eq_true, if_true, if_false, ite_true, ite_false,
    List.flatten_nil, List.nil_append] at ht hf
  rw [List.filter_flatten]
  exact ⟨ht.2.1, ht.2.2.1, ht.2.2.2.1, ht.2.2.2.2.1, ht.2.2.2.2.2,
    by rw [hf.2.1]; simp,
    by rw [hf.2.2.1]; simp,
    by rw [hf.2.2.2.1]; simp,
    by rw [hf.2.2.2.2.1],
    hf.2.2.2.2.2⟩

/-- **C6.** The validation pass leaves the model parameters unchanged
(no backward pass, no optimizer step), runs in evaluation mode, applies no
sliding-window filtering — every sample of every validation batch appears in
the flattened error-aggregation arrays — and computes predictions and losses
by the identical formulas used in training
(`model(x) * norm_factor` per sample and `criterion` on the full batch). -/
theorem validation_pass_spec (m : ℚ → ℚ → ℚ)
    (c : List ℚ → List ℚ → List ℚ → List ℚ → ℚ)
    (params : ℚ) (batches : List (List Sample)) :
    (valPass m c params batches).params = params ∧
    (valPass m c params batches).mode = Mode.eval ∧
    (valPass m c params batches).epoch_ys.flatten
        = batches.flatten.map Sample.y ∧
    (valPass m c params batches).epoch_scales.flatten
        = batches.flatten.map Sample.scale ∧
    (valPass m c params batches).epoch_ws.flatten
        = batches.flatten.map Sample.weight ∧
    (valPass m c params batches).epoch_preds.flatten
        = batches.flatten.map (fun s => m params s.x * s.normFactor) ∧
    (valPass m c params batches).losses
        = batches.map (fun b => batchLoss c (forwardPreds m params b) b) := by
  have h := valBatch_fold m c batches
    { params := params, mode := Mode.eval, losses := [],
      epoch_preds := [], epoch_ys := [], epoch_ws := [], epoch_scales := [] }
  simp only [valPass]
  simp only [List.flatten_nil, List.nil_append] at h
  exact ⟨h.1, h.2.1, h.2.2.1, h.2.2.2.1, h.2.2.2.2.1, h.2.2.2.2.2.1,
    h.2.2.2.2.2.2⟩

/-- Loop-level bookkeeping of `Trainer.train` (train.py lines 114-204):
the tracked best validation error, the early-stopping monitor, the
`(is_best, epoch)` pairs passed to `ModelCheckpoint.save` (lines 189-190)
and the `(epoch, step)` pairs passed to the scalar log sink (lines 193-198,
all six series of an epoch share one step value). -/
structure LoopState where
  min_val_error : Option ℚ
  early_stopping : EarlyStopping
  saves : List (Bool × ℕ)
  logSteps : List (ℕ × ℕ)
deriving DecidableEq, Repr

/-- The step value passed to all six `writer.add_scalar` calls of an epoch
(train.py lines 193-198): `epoch * i`, where `i` holds the index of the last
batch of the epoch's training loop, i.e. `numBatches - 1`. -/
def logStep (epoch numBatches : ℕ) : ℕ :=
  epoch * (numBatches - 1)

/-- The per-epoch tail of `Trainer.train` (train.py lines 167-204) as it
affects the loop bookkeeping: the epoch's validation error `valErr epoch`
drives the best-error update (lines 178-188), one checkpoint save
(lines 189-190), the log writes at step `logStep epoch numBatches`
(lines 193-198), and the early-stopping decision (line 201), whose signal is
returned. -/
def epochBody (valErr : ℕ → ℚ) (numBatches : ℕ) (epoch : ℕ) (s : LoopState) :
    LoopState × Bool :=
  let v := valErr epoch
  let cs := checkpointStep s.min_val_error v
  let es := s.early_stopping.step v
  ({ min_val_error := cs.1,
     early_stopping := es.2,
     saves := s.saves ++ [(cs.2, epoch)],
     logSteps := s.logSteps ++ [(epoch, logStep epoch numBatches)] },
   es.1)

/-- The epoch loop skeleton (train.py lines 114 and 200-204):
`remaining` epochs are executed starting at epoch `e`, each epoch runs
`body`, and the loop breaks as soon as the body's early-stopping signal is
true. Returns the final state and the trace of `(epoch, stop_signal)` pairs
of the executed epochs. -/
def epochLoop (body : ℕ → LoopState → LoopState × Bool) :
    ℕ → ℕ → LoopState → LoopState × List (ℕ × Bool)
  | _, 0, s => (s, [])
  | e, remaining + 1, s =>
    let r := body e s
    if r.2 then (r.1, [(e, true)])
    else
      let rec1 := epochLoop body (e + 1) remaining r.1
      (rec1.1, (e, false) :: rec1.2)

/-- `Trainer.train`'s loop (train.py line 114):
`for epoch in range(self.start_epoch, self.config.num_epochs + 1)`. -/
def trainerTrain (valErr : ℕ → ℚ) (numBatches start_epoch num_epochs : ℕ)
    (s0 : LoopState) : LoopState × List (ℕ × Bool) :=
  epochLoop (epochBody valErr numBatches) start_epoch
    (num_epochs + 1 - start_epoch) s0

lemma epochLoop_succ (body : ℕ → LoopState → LoopState × Bool)
    (e n : ℕ) (s : LoopState) :
    epochLoop body e (n + 1) s =
      if (body e s).2 then ((body e s).1, [(e, true)])
      else ((epochLoop body (e + 1) n (body e s).1).1,
            (e, false) :: (epochLoop body (e + 1) n (body e s).1).2) := rfl

lemma epochLoop_trace (body : ℕ → LoopState → LoopState × Bool) :
    ∀ (n e0 : ℕ) (s0 : LoopState),
    (∀ k, k < ((epochLoop body e0 n s0).2).length →
      (((epochLoop body e0 n s0).2).getD k (0, false)).1 = e0 + k) ∧
    (∀ k, (((epochLoop body e0 n s0).2).getD k (0, false)).2 = true →
      ((epochLoop body e0 n s0).2).length = k + 1) := by
  intro n
  induction n with
  | zero =>
    intro e0 s0
    constructor
    · intro k hk; simp [epochLoop] at hk
    · intro k hk; simp [epochLoop, List.getD] at hk
  | succ m ih =>
    intro e0 s0
    by_cases hstop : (body e0 s0).2 = true
    · constructor
      · intro k hk
        rw [epochLoop_succ, if_pos hstop] at hk ⊢
        cases k with
        | zero => rfl
        | succ j => simp at hk
      · intro k hk
        rw [epochLoop_succ, if_pos hstop] at hk ⊢
        cases k with
        | zero => rfl
        | succ j => simp [List.getD] at hk
    · obtain ⟨ih1, ih2⟩ := ih (e0 + 1) (body e0 s0).1
      constructor
      · intro k hk
        rw [epochLoop_succ, if_neg hstop] at hk ⊢
        cases k with
        | zero => rfl
        | succ j =>
          simp only [List.getD_cons_succ]
          simp only [List.length_cons, Nat.succ_lt_succ_iff] at hk
          rw [ih1 j hk]
          omega
      · intro k hk
        rw [epochLoop_succ, if_neg hstop] at hk ⊢
        cases k with
        | zero => simp at hk
        | succ j =>
          simp only [List.getD_cons_succ] at hk
          simp only [List.length_cons]
          rw [ih2 j hk]

lemma epochLoop_saves_logs (valErr : ℕ → ℚ) (numBatches : ℕ) :
    ∀ (n e0 : ℕ) (s0 : LoopState),
    ((epochLoop (epochBody valErr numBatches) e0 n s0).1).saves.map Prod.snd
        = s0.saves.map Prod.snd
          ++ ((epochLoop (epochBody valErr numBatches) e0 n s0).2).map Prod.fst ∧
    ((epochLoop (epochBody valErr numBatches) e0 n s0).1).logSteps.map Prod.fst
        = s0.logSteps.map Prod.fst
          ++ ((epochLoop (epochBody valErr numBatches) e0 n s0).2).map Prod.fst := by
  intro n
  induction n with
  | zero => intro e0 s0; simp [epochLoop]
  | succ m ih =>
    intro e0 s0
    by_cases hstop : (epochBody valErr numBatches e0 s0).2 = true
    · rw [epochLoop_succ, if_pos hstop]
      constructor
      · simp [epochBody]
      · simp [epochBody]
    · obtain ⟨ih1, ih2⟩ := ih (e0 + 1) (epochBody valErr numBatches e0 s0).1
      rw [epochLoop_succ, if_neg hstop]
      constructor
      · simp only [List.map_cons]
        rw [ih1]
        simp [epochBody]
      · simp only [List.map_cons]
        rw [ih2]
        simp [epochBody]

/-- **C5.** In any run of `Trainer.train`'s epoch loop, the executed epochs
are consecutive starting from `start_epoch`; if the early-stopping monitor
signals termination at the `k`-th executed epoch, that epoch is the last one
executed (the trace has length `k + 1`); and both the checkpoint saves and
the log writes are performed exactly for the executed epochs — none for any
epoch after the stop signal. -/
theorem early_stop_halts_loop (valErr : ℕ → ℚ)
    (numBatches start_epoch num_epochs : ℕ) (s0 : LoopState) :
    (∀ k, k < ((trainerTrain valErr numBatches start_epoch num_epochs s0).2).length →
      (((trainerTrain valErr numBatches start_epoch num_epochs s0).2).getD k (0, false)).1
        = start_epoch + k) ∧
    (∀ k, (((trainerTrain valErr numBatches start_epoch num_epochs s0).2).getD k (0, false)).2
        = true →
      ((trainerTrain valErr numBatches start_epoch num_epochs s0).2).length = k + 1) ∧
    ((trainerTrain valErr numBatches start_epoch num_epochs s0).1).saves.map Prod.snd
        = s0.saves.map Prod.snd
          ++ ((trainerTrain valErr numBatches start_epoch num_epochs s0).2).map Prod.fst ∧
    ((trainerTrain valErr numBatches start_epoch num_epochs s0).1).logSteps.map Prod.fst
        = s0.logSteps.map Prod.fst
          ++ ((trainerTrain valErr numBatches start_epoch num_epochs s0).2).map Prod.fst := by
  obtain ⟨h1, h2⟩ := epochLoop_trace (epochBody valErr numBatches)
    (num_epochs + 1 - start_epoch) start_epoch s0
  obtain ⟨h3, h4⟩ := epochLoop_saves_logs valErr numBatches
    (num_epochs + 1 - start_epoch) start_epoch s0
  exact ⟨h1, h2, h3, h4⟩

/-- Witness for `early_stop_halts_loop`: constant validation error `5`,
patience 1, epochs 1..5 — the monitor signals at epoch 2, the trace is
`[(1, false), (2, true)]`, and saves/log writes happen exactly for epochs
1 and 2. -/
theorem early_stop_halts_loop_witness :
    ((trainerTrain (fun _ => 5) 3 1 5 ⟨none, ⟨1, none, 0⟩, [], []⟩).2).length = 2 ∧
    ((trainerTrain (fun _ => 5) 3 1 5 ⟨none, ⟨1, none, 0⟩, [], []⟩).1).saves.map Prod.snd
      = [1, 2] := by
  have h := early_stop_halts_loop (fun _ => 5) 3 1 5 ⟨none, ⟨1, none, 0⟩, [], []⟩
  refine ⟨h.2.1 1 (by decide), ?_⟩
  rw [h.2.2.1]
  decide

/-- One fold execution record of the `__main__` k-fold loop
(train.py lines 222-232): the 1-based fold index written into the config
(line 225), the resume flag in effect when the fold's fresh `Trainer` is
constructed (line 230), and the fold's `(training_ts, validation_ts)` split
assigned into the config (line 228). -/
structure FoldRun where
  foldIndex : ℕ
  resume : Bool
  split : ℚ × ℚ
deriving DecidableEq, Repr

/-- The fold loop body (train.py lines 222-232): folds whose 0-based
enumeration index is below `start_fold` are skipped (`continue`, lines
223-224); every executed fold gets a fresh `Trainer` run with the current
resume flag, and `config.resume_training` is set to false after each
executed fold (line 232). -/
def kFoldGo (start_fold : ℕ) : ℕ → Bool → List (ℚ × ℚ) → List FoldRun
  | _, _, [] => []
  | fold, resume, s :: rest =>
    if fold < start_fold then kFoldGo start_fold (fold + 1) resume rest
    else { foldIndex := fold + 1, resume := resume, split := s }
           :: kFoldGo start_fold (fold + 1) false rest

/-- The k-fold driver (train.py lines 215-232): with resumption requested,
`start_fold = config.resume_from_fold - 1`, otherwise 0 (line 219), and the
folds are enumerated from 0. -/
def kFoldDriver (resume_training : Bool) (resume_from_fold : ℕ)
    (splits : List (ℚ × ℚ)) : List FoldRun :=
  kFoldGo (if resume_training then resume_from_fold - 1 else 0) 0
    resume_training splits

/-- `Trainer.__init__`'s starting epoch (train.py lines 56-64):
1 unless resumption is requested, in which case the checkpoint's
`start_epoch` is used. -/
def trainerStartEpoch (resume_training : Bool) (loaded_start_epoch : ℕ) : ℕ :=
  if resume_training then loaded_start_epoch else 1

lemma kFoldGo_skip (s : ℕ) (resume : Bool) :
    ∀ (splits : List (ℚ × ℚ)) (j : ℕ), j ≤ s →
    kFoldGo s j resume splits = kFoldGo s s resume (splits.drop (s - j)) := by
  intro splits
  induction splits with
  | nil => intro j _; simp [kFoldGo]
  | cons x rest ih =>
    intro j hj
    rcases Nat.lt_or_ge j s with hlt | hge
    · have hdrop : s - j = (s - (j + 1)) + 1 := by omega
      rw [hdrop]
      simp only [kFoldGo, if_pos hlt, List.drop_succ_cons]
      exact ih (j + 1) (by omega)
    · have hjs : j = s := le_antisymm hj hge
      subst hjs
      simp

lemma kFoldGo_run (s : ℕ) :
    ∀ (l : List (ℚ × ℚ)) (j : ℕ) (resume : Bool), s ≤ j →
    (kFoldGo s j resume l).map FoldRun.foldIndex = List.range' (j + 1) l.length ∧
    (kFoldGo s j resume l).length = l.length ∧
    (∀ k, k < l.length →
      ((kFoldGo s j resume l).getD k ⟨0, false, (0, 0)⟩).split = l.getD k (0, 0)) ∧
    (∀ k, k < l.length →
      ((kFoldGo s j resume l).getD k ⟨0, false, (0, 0)⟩).resume
        = (resume && decide (k = 0))) := by
  intro l
  induction l with
  | nil =>
    intro j resume _
    refine ⟨rfl, rfl, ?_, ?_⟩ <;> intro k hk <;> simp at hk
  | cons x rest ih =>
    intro j resume hj
    have hnoskip : ¬ j < s := not_lt.mpr hj
    obtain ⟨ihmap, ihlen, ihsplit, ihres⟩ := ih (j + 1) false (by omega)
    simp only [kFoldGo, if_neg hnoskip]
    refine ⟨?_, ?_, ?_, ?_⟩
    · simp only [List.map_cons, ihmap, List.length_cons, List.range']
    · simp [ihlen]
    · intro k hk
      cases k with
      | zero => rfl
      | succ i =>
        simp only [List.getD_cons_succ]
        exact ihsplit i (Nat.lt_of_succ_lt_succ hk)
    · intro k hk
      cases k with
      | zero => simp
      | succ i =>
        simp only [List.getD_cons_succ]
        rw [ihres i (Nat.lt_of_succ_lt_succ hk)]
        simp

/-- **C7.** With cross-validation enabled and resumption requested from fold
`F ≥ 1`, the k-fold driver executes exactly the folds with 1-based index
`F, F+1, ..., n` in order (every fold strictly before `F` is skipped), each
executed fold receives the corresponding configured split, the first executed
fold runs with the resume flag still set while every later fold runs with it
cleared — hence, by `trainerStartEpoch`, every fold after the first starts
from epoch 1. -/
theorem kfold_resume_sequencing (F : ℕ) (hF : 1 ≤ F) (splits : List (ℚ × ℚ)) :
    (kFoldDriver true F splits).map FoldRun.foldIndex
        = List.range' F (splits.length + 1 - F) ∧
    (∀ k, k < (kFoldDriver true F splits).length →
      ((kFoldDriver true F splits).getD k ⟨0, false, (0, 0)⟩).split
        = splits.getD (F - 1 + k) (0, 0)) ∧
    (∀ k, k < (kFoldDriver true F splits).length →
      ((kFoldDriver true F splits).getD k ⟨0, false, (0, 0)⟩).resume
        = decide (k = 0)) ∧
    (∀ k loaded, 1 ≤ k → k < (kFoldDriver true F splits).length →
      trainerStartEpoch
        ((kFoldDriver true F splits).getD k ⟨0, false, (0, 0)⟩).resume loaded = 1) := by
  have hdrv : kFoldDriver true F splits
      = kFoldGo (F - 1) (F - 1) true (splits.drop (F - 1)) := by
    unfold kFoldDriver
    rw [if_pos rfl, kFoldGo_skip (F - 1) true splits 0 (Nat.zero_le _)]
    simp
  obtain ⟨hmap, hlen, hsplit, hres⟩ :=
    kFoldGo_run (F - 1) (splits.drop (F - 1)) (F - 1) true le_rfl
  have hdlen : (splits.drop (F - 1)).length = splits.length + 1 - F := by
    simp [List.length_drop]
    omega
  refine ⟨?_, ?_, ?_, ?_⟩
  · rw [hdrv, hmap, hdlen]
    congr 1
    omega
  · intro k hk
    rw [hdrv] at hk ⊢
    rw [hlen] at hk
    rw [hsplit k hk]
    have : (splits.drop (F - 1)).getD k (0, 0) = splits.getD (F - 1 + k) (0, 0) := by
      simp [List.getD_eq_getElem?_getD, List.getElem?_drop]
    exact this
  · intro k hk
    rw [hdrv] at hk ⊢
    rw [hlen] at hk
    rw [hres k hk]
    simp
  · intro k loaded hk1 hk
    rw [hdrv] at hk ⊢
    rw [hlen] at hk
    rw [hres k hk]
    have : ¬ k = 0 := by omega
    simp [this, trainerStartEpoch]

/-- Witness for `kfold_resume_sequencing`: three configured folds with a
resume request at fold 2 — fold 1 is skipped, folds 2 and 3 execute with
resume flags true and false, and fold 3 starts from epoch 1. -/
theorem kfold_resume_sequencing_witness :
    (kFoldDriver true 2 [((1 : ℚ), (1 : ℚ)), (2, 2), (3, 3)]).map FoldRun.foldIndex
        = [2, 3] ∧
    ((kFoldDriver true 2 [((1 : ℚ), (1 : ℚ)), (2, 2), (3, 3)]).getD 0
        ⟨0, false, (0, 0)⟩).resume = true ∧
    trainerStartEpoch
      ((kFoldDriver true 2 [((1 : ℚ), (1 : ℚ)), (2, 2), (3, 3)]).getD 1
        ⟨0, false, (0, 0)⟩).resume 7 = 1 := by
  have h := kfold_resume_sequencing 2 (by decide) [((1 : ℚ), (1 : ℚ)), (2, 2), (3, 3)]
  refine ⟨?_, ?_, ?_⟩
  · rw [h.1]; decide
  · rw [h.2.2.1 0 (by decide)]; decide
  · exact h.2.2.2 1 7 (by decide) (by decide)

/-- A log entry found under the logs directory by the glob calls
(train.py lines 68 and 75): a plain file or a directory. -/
inductive LogEntry
  | file
  | dir
deriving DecidableEq, Repr

/-- `os.remove` deletes a file and raises `IsADirectoryError` on a
directory. -/
def osRemove : LogEntry → Except String Unit
  | LogEntry.file => Except.ok ()
  | LogEntry.dir => Except.error "IsADirectoryError"

/-- `shutil.rmtree` removes a directory tree recursively; on the entries the
cleanup hands it, it succeeds. -/
def rmtree : LogEntry → Except String Unit :=
  fun _ => Except.ok ()

/-- Log cleanup of a non-resumed run when no fold namespace is active
(train.py lines 67-73): each entry is removed with `os.remove`, and an
`IsADirectoryError` is caught and recovered by `shutil.rmtree`. -/
def cleanupLogsNoFold : List LogEntry → Except String Unit
  | [] => Except.ok ()
  | f :: rest =>
    match osRemove f with
    | Except.ok _ => cleanupLogsNoFold rest
    | Except.error e =>
      if e = "IsADirectoryError" then
        match rmtree f with
        | Except.ok _ => cleanupLogsNoFold rest
        | Except.error e2 => Except.error e2
      else Except.error e

/-- Log cleanup of a non-resumed run when a fold namespace is active
(train.py lines 74-77): each entry is removed with a bare `os.remove`
inside no try/except, so any error propagates. -/
def cleanupLogsFold : List LogEntry → Except String Unit
  | [] => Except.ok ()
  | f :: rest =>
    match osRemove f with
    | Except.ok _ => cleanupLogsFold rest
    | Except.error e => Except.error e

/-- **C9 counterexample.** The claimed recovery does not apply when a fold
namespace is active: cleaning up a log directory entry with `config.fold`
set propagates the is-a-directory error (train.py lines 74-77 have no
try/except), while the same entry is recovered when no fold is active. -/
theorem fold_cleanup_not_recovered :
    cleanupLogsFold [LogEntry.dir] = Except.error "IsADirectoryError" ∧
    cleanupLogsNoFold [LogEntry.dir] = Except.ok () := by
  exact ⟨rfl, rfl⟩

/-- **C9 (amended).** During pre-run log cleanup of a non-resumed run with no
fold namespace active, every is-a-directory error is recovered by the
recursive-removal fallback and cleanup completes; with a fold namespace
active there is no such recovery — cleanup completes iff every log entry is
a plain file, and a directory entry makes the error propagate. -/
theorem log_cleanup_recovery :
    (∀ logs : List LogEntry, cleanupLogsNoFold logs = Except.ok ()) ∧
    (∀ logs : List LogEntry,
      cleanupLogsFold logs = Except.ok ()
        ↔ logs.all (fun f => f == LogEntry.file) = true) := by
  constructor
  · intro logs
    induction logs with
    | nil => rfl
    | cons f rest ih => cases f <;> simpa [cleanupLogsNoFold, osRemove, rmtree]
  · intro logs
    induction logs with
    | nil => simp [cleanupLogsFold]
    | cons f rest ih =>
      cases f
      · rw [show cleanupLogsFold (LogEntry.file :: rest) = cleanupLogsFold rest from rfl,
          ih]
        simp
      · simp [cleanupLogsFold, osRemove]

/-- **C10.** The scalar-log step value `epoch * (numBatches - 1)`
(train.py lines 193-198, with `i` leaking the last training-batch index from
the loop at line 119) is not monotonically increasing across epochs: with a
single training batch per epoch every epoch logs at step 0, and with batch
counts 5 then 2 the steps are 4 then 2; a full loop run with one batch per
epoch logs epochs 1 and 2 both at step 0. -/
theorem log_step_not_monotone :
    logStep 1 1 = 0 ∧ logStep 2 1 = 0 ∧ logStep 2 1 ≤ logStep 1 1 ∧
    logStep 1 5 = 4 ∧ logStep 2 2 = 2 ∧ logStep 2 2 < logStep 1 5 ∧
    (trainerTrain (fun _ => 5) 1 1 2 ⟨none, ⟨10, none, 0⟩, [], []⟩).1.logSteps
      = [(1, 0), (2, 0)] := by
  refine ⟨rfl, rfl, by decide, rfl, rfl, by decide, ?_⟩
  decide

end TrainPy
